import Mathlib

/-!
Verification of the Java-Analysis repository (a Python tool that scores Java
source files by heuristic importance, sends them to an LLM, and reconciles the
JSON responses back to the submitted files).

This file is a shallow embedding of the relevant source code:

* `src/analyzers/file_analyzer.py` — the importance scorer
  (`FileAnalyzer._is_main_class`, `_is_entry_point`, `_is_config_file`,
  `_calculate_complexity_score`, `_calculate_dependency_score`,
  `_calculate_business_logic_score`, `_determine_file_type`,
  `_calculate_file_importance`);
* `src/core/models.py` — `FileImportance.calculate_total_score`, `LLMResponse`
  (with its pydantic range validation of `confidence_score`);
* `src/analyzers/llm_analyzer.py` — `LLMAnalyzer._analyze_file_group`,
  `_analyze_single_file`, `_extract_json_from_response`, `_group_files`,
  `analyze_files`, and the summary/extraction helpers;
* `src/utils/file_utils.py` — `sanitize_path` (POSIX branch);
* `src/cli.py` — the max-files selection in `analyze`.

Python strings are modelled as `List Char` (with `String` wrappers at the API
surface); Python floats are modelled as exact rationals `ℚ`; `json.loads` is
modelled by an executable JSON parser over the same value domain the code
consumes.  Modelling simplifications, each noted at its definition:
`str.splitlines` treats only a line feed as a line break, whitespace sets are
the ASCII whitespace characters, and `str.lower` lowercases characterwise.
-/

/-! ## String primitives (Python `str` operations on `List Char`) -/

/-- Characters stripped by Python `str.strip()` (ASCII whitespace). -/
def isPySpace (c : Char) : Bool :=
  c = ' ' || c = '\t' || c = '\n' || c = '\r' || c = '\x0b' || c = '\x0c'

/-- Python `s.strip()`: drop leading and trailing whitespace. -/
def pyStrip (l : List Char) : List Char :=
  ((l.dropWhile isPySpace).reverse.dropWhile isPySpace).reverse

/-- Python `pat in s`: substring containment. -/
def hasSub (pat : List Char) : List Char → Bool
  | [] => pat.isEmpty
  | c :: rest => pat.isPrefixOf (c :: rest) || hasSub pat rest

/-- The text of `s` strictly before the first occurrence of `pat`
(all of `s` when `pat` does not occur). -/
def takeUntilSub (pat : List Char) : List Char → List Char
  | [] => []
  | c :: rest => if pat.isPrefixOf (c :: rest) then [] else c :: takeUntilSub pat rest

/-- Structural worker for `countSub`: the fuel bounds the number of scan
steps, and `countSub` supplies enough fuel to finish the scan. -/
def countSubFuel (pat : List Char) : Nat → List Char → Nat
  | 0, _ => 0
  | _ + 1, [] => 0
  | fuel + 1, c :: rest =>
    if pat.isPrefixOf (c :: rest) then
      1 + countSubFuel pat fuel (rest.drop (pat.length - 1))
    else countSubFuel pat fuel rest

/-- Python `s.count(pat)`: non-overlapping occurrences, scanned left to right. -/
def countSub (pat : List Char) (s : List Char) : Nat :=
  countSubFuel pat s.length s

/-- Split at every line feed.  Always returns at least one chunk. -/
def splitOnNl : List Char → List (List Char)
  | [] => [[]]
  | c :: rest =>
    let r := splitOnNl rest
    if c = '\n' then [] :: r
    else
      match r with
      | h :: t => (c :: h) :: t
      | [] => [[c]]

/-- Join chunks with a line feed (inverse of `splitOnNl`). -/
def joinNl : List (List Char) → List Char
  | [] => []
  | [h] => h
  | h :: t => h ++ '\n' :: joinNl t

/-- Python `s.splitlines()`, modelled with a line feed as the only line break:
no chunk for the empty string, and no empty final chunk after a trailing
line feed. -/
def pySplitlines (l : List Char) : List (List Char) :=
  if l.isEmpty then []
  else if l.getLast? = some '\n' then (splitOnNl l).dropLast
  else splitOnNl l

/-- Python `pat in content` on `String`s. -/
def hasStr (pat content : String) : Bool := hasSub pat.toList content.toList

/-- Python `content.count(pat)` on `String`s. -/
def countStr (pat content : String) : Nat := countSub pat.toList content.toList

/-- Python `len(content.splitlines())`. -/
def pyLineCount (content : String) : Nat := (pySplitlines content.toList).length

/-! ## Importance scorer (`src/analyzers/file_analyzer.py`, `src/core/models.py`) -/

/-- The `FileImportance` pydantic model of `src/core/models.py`, with Python
floats modelled as exact rationals. -/
structure FileImportance where
  is_main_class : Bool := false
  is_entry_point : Bool := false
  is_config_file : Bool := false
  complexity_score : ℚ := 0
  dependency_score : ℚ := 0
  business_logic_score : ℚ := 0
  total_score : ℚ := 0
deriving DecidableEq, Repr

/-- Python arithmetic on a `bool`: `True` is 1, `False` is 0. -/
def boolVal (b : Bool) : ℚ := if b then 1 else 0

/-- `FileImportance.calculate_total_score`: the fixed weighted sum
main=5, entry-point=4, config=3, complexity=2, dependency=2, business=3. -/
def calculate_total_score (imp : FileImportance) : FileImportance :=
  { imp with
    total_score :=
      boolVal imp.is_main_class * 5 +
      boolVal imp.is_entry_point * 4 +
      boolVal imp.is_config_file * 3 +
      imp.complexity_score * 2 +
      imp.dependency_score * 2 +
      imp.business_logic_score * 3 }

/-- `FileAnalyzer._is_main_class`. -/
def is_main_class (content : String) : Bool :=
  hasStr "public static void main(" content

/-- The indicator list of `FileAnalyzer._is_entry_point`. -/
def entry_point_indicators : List String :=
  ["@SpringBootApplication", "@Application", "extends Application",
   "implements Application", "public static void main(", "@WebServlet",
   "@Controller", "@RestController"]

/-- `FileAnalyzer._is_entry_point`. -/
def is_entry_point (content : String) : Bool :=
  entry_point_indicators.any (fun ind => hasStr ind content)

/-- The indicator list of `FileAnalyzer._is_config_file`. -/
def config_indicators : List String :=
  ["@Configuration", "@Config", "extends Configuration",
   "implements Configuration", "application.properties", "application.yml",
   "application.yaml"]

/-- `FileAnalyzer._is_config_file`.  The source receives the classified
`file_type` as a second argument but never reads it. -/
def is_config_file (content : String) (file_type : String) : Bool :=
  config_indicators.any (fun ind => hasStr ind content)

/-- `FileAnalyzer._calculate_complexity_score`: average of the
visibility-keyword count over 10, the brace imbalance over 20, and the line
count over 500, each capped above at 1.  The brace imbalance
`count('\x7b') - count('\x7d')` is a Python `int` subtraction and may be
negative; the source caps it only from above. -/
def calculate_complexity_score (content : String) : ℚ :=
  let method_count : ℚ :=
    ((countStr "public " content + countStr "private " content +
      countStr "protected " content : Nat) : ℚ)
  let nested_count : ℚ :=
    ((countStr "\x7b" content : Nat) : ℚ) - ((countStr "\x7d" content : Nat) : ℚ)
  let loc : ℚ := ((pyLineCount content : Nat) : ℚ)
  (min (method_count / 10) 1 + min (nested_count / 20) 1 + min (loc / 500) 1) / 3

/-- `FileAnalyzer._calculate_dependency_score`: average of the `"import "`
count over 20 and the `"@"` count over 10, each capped above at 1. -/
def calculate_dependency_score (content : String) : ℚ :=
  let import_count : ℚ := ((countStr "import " content : Nat) : ℚ)
  let annotation_count : ℚ := ((countStr "@" content : Nat) : ℚ)
  (min (import_count / 20) 1 + min (annotation_count / 10) 1) / 2

/-- The indicator list of `FileAnalyzer._calculate_business_logic_score`. -/
def business_indicators : List String :=
  ["Service", "Repository", "DAO", "Manager", "Handler", "Processor",
   "Factory", "Builder", "Strategy", "Command", "Observer", "State",
   "Template"]

/-- `FileAnalyzer._calculate_business_logic_score`: fraction of the indicator
list present in the content, capped at 1. -/
def calculate_business_logic_score (content : String) : ℚ :=
  let score : ℚ :=
    (((business_indicators.filter (fun ind => hasStr ind content)).length : Nat) : ℚ)
  min (score / (business_indicators.length : ℚ)) 1

/-- `FileAnalyzer._determine_file_type`: first keyword match on the lowercased
content, priority interface > enum > class > unknown.  `str.lower` is modelled
characterwise. -/
def determine_file_type (content : String) : String :=
  let content_lower := content.toList.map Char.toLower
  if hasSub "interface ".toList content_lower then "interface"
  else if hasSub "enum ".toList content_lower then "enum"
  else if hasSub "class ".toList content_lower then "class"
  else "unknown"

/-- `FileAnalyzer._calculate_file_importance`: assemble all sub-scores and run
`calculate_total_score`.  The classified `file_type` is passed through to
`is_config_file`, which ignores it. -/
def calculate_file_importance (content : String) (file_type : String) :
    FileImportance :=
  calculate_total_score
    { is_main_class := is_main_class content
      is_entry_point := is_entry_point content
      is_config_file := is_config_file content file_type
      complexity_score := calculate_complexity_score content
      dependency_score := calculate_dependency_score content
      business_logic_score := calculate_business_logic_score content
      total_score := 0 }

/-! ## Theorems about the importance scorer -/

/-- C1 counterexample: on the one-character content consisting of a single
closing brace, the brace imbalance is negative and uncapped below, so
`complexity_score` drops below 0 and with it `total_score`, refuting both the
claimed lower bound `complexity_score ≥ 0` and the claimed `total_score ≥ 0`. -/
theorem C1_counterexample :
    (calculate_file_importance "\x7d" "class").complexity_score < 0 ∧
    (calculate_file_importance "\x7d" "class").total_score < 0 := by
  have hb : countStr "\x7b" "\x7d" = 0 := by decide
  have hc : countStr "\x7d" "\x7d" = 1 := by decide
  have hpub : countStr "public " "\x7d" = 0 := by decide
  have hpriv : countStr "private " "\x7d" = 0 := by decide
  have hprot : countStr "protected " "\x7d" = 0 := by decide
  have himp : countStr "import " "\x7d" = 0 := by decide
  have hat : countStr "@" "\x7d" = 0 := by decide
  have hloc : pyLineCount "\x7d" = 1 := by decide
  have hmain : is_main_class "\x7d" = false := by decide
  have hentry : is_entry_point "\x7d" = false := by decide
  have hconf : is_config_file "\x7d" "class" = false := by decide
  have hfil : business_indicators.filter (fun ind => hasStr ind "\x7d") = [] := by
    decide
  have hbiz : calculate_business_logic_score "\x7d" = 0 := by
    simp only [calculate_business_logic_score, hfil]
    norm_num
  constructor <;>
  · simp only [calculate_file_importance, calculate_total_score,
      calculate_complexity_score, calculate_dependency_score,
      hb, hc, hpub, hpriv, hprot, himp, hat, hloc, hmain, hentry, hconf, hbiz,
      boolVal]
    norm_num [min_def]

/-- C1 (amended): for every file content, `dependency_score` and
`business_logic_score` lie in [0,1] and `complexity_score` is at most 1 (it may
be negative when closing braces outnumber opening braces), and `total_score`
equals exactly the weighted sum 5·is_main_class + 4·is_entry_point +
3·is_config_file + 2·complexity_score + 2·dependency_score +
3·business_logic_score with flags treated as 0/1 (hence `total_score` itself
may be negative). -/
theorem C1_amended (content : String) (file_type : String) :
    0 ≤ (calculate_file_importance content file_type).dependency_score ∧
    (calculate_file_importance content file_type).dependency_score ≤ 1 ∧
    0 ≤ (calculate_file_importance content file_type).business_logic_score ∧
    (calculate_file_importance content file_type).business_logic_score ≤ 1 ∧
    (calculate_file_importance content file_type).complexity_score ≤ 1 ∧
    (calculate_file_importance content file_type).total_score =
      boolVal (calculate_file_importance content file_type).is_main_class * 5 +
      boolVal (calculate_file_importance content file_type).is_entry_point * 4 +
      boolVal (calculate_file_importance content file_type).is_config_file * 3 +
      (calculate_file_importance content file_type).complexity_score * 2 +
      (calculate_file_importance content file_type).dependency_score * 2 +
      (calculate_file_importance content file_type).business_logic_score * 3 := by
  simp only [calculate_file_importance, calculate_total_score,
    calculate_dependency_score, calculate_business_logic_score,
    calculate_complexity_score]
  refine ⟨?_, ?_, ?_, ?_, ?_, by trivial⟩
  · have h1 : (0:ℚ) ≤ min (((countStr "import " content : Nat) : ℚ) / 20) 1 :=
      le_min (by positivity) (by norm_num)
    have h2 : (0:ℚ) ≤ min (((countStr "@" content : Nat) : ℚ) / 10) 1 :=
      le_min (by positivity) (by norm_num)
    linarith
  · have h1 : min (((countStr "import " content : Nat) : ℚ) / 20) 1 ≤ 1 :=
      min_le_right _ _
    have h2 : min (((countStr "@" content : Nat) : ℚ) / 10) 1 ≤ 1 :=
      min_le_right _ _
    linarith
  · have h0 : (0:ℚ) ≤
        (((business_indicators.filter (fun ind => hasStr ind content)).length : Nat) : ℚ) /
          (business_indicators.length : ℚ) := by positivity
    exact le_min h0 (by norm_num)
  · exact min_le_right _ _
  · have h1 : min ((((countStr "public " content + countStr "private " content +
        countStr "protected " content : Nat) : ℚ)) / 10) 1 ≤ 1 := min_le_right _ _
    have h2 : min (((((countStr "\x7b" content : Nat) : ℚ) -
        ((countStr "\x7d" content : Nat) : ℚ)) / 20)) 1 ≤ 1 := min_le_right _ _
    have h3 : min (((pyLineCount content : Nat) : ℚ) / 500) 1 ≤ 1 := min_le_right _ _
    linarith

/-- C6: kind classification is a deterministic priority-ordered function of the
content; a content containing both the `"interface "` and `"class "` keyword
tokens (as the source tests them, on the lowercased content) classifies as
`interface`. -/
theorem C6_interface_priority (content : String)
    (hi : hasSub "interface ".toList (content.toList.map Char.toLower) = true)
    (hc : hasSub "class ".toList (content.toList.map Char.toLower) = true) :
    determine_file_type content = "interface" := by
  unfold determine_file_type
  simp only [hi, if_true]

/-- Witness for C6 at the concrete content `"interface class "`. -/
theorem C6_interface_priority_witness :
    determine_file_type "interface class " = "interface" :=
  C6_interface_priority "interface class " (by decide) (by decide)

/-- C8: every content accepted by `is_main_class` is accepted by
`is_entry_point`, because the main-method signature is one of the entry-point
indicator substrings. -/
theorem C8_entry_point_superset (content : String)
    (h : is_main_class content = true) : is_entry_point content = true := by
  unfold is_entry_point
  refine List.any_eq_true.mpr ⟨"public static void main(", ?_, h⟩
  unfold entry_point_indicators
  decide

/-- Witness for C8 at the concrete content `"public static void main("`. -/
theorem C8_entry_point_superset_witness :
    is_entry_point "public static void main(" = true :=
  C8_entry_point_superset "public static void main(" (by decide)

/-- C10: the computed `FileImportance` is independent of the classified kind
argument, since no sub-score (including `is_config_file`, which receives the
kind parameter) reads it. -/
theorem C10_kind_independent (content : String) (k1 k2 : String) :
    calculate_file_importance content k1 = calculate_file_importance content k2 :=
  rfl

/-! ## JSON values and parser (model of `json.loads`)

The parser is an executable model of Python `json.loads` over the value forms
the analyzer consumes: objects, arrays, strings (with the standard escapes and
basic `\u` escapes), numbers, booleans and null.  Numbers are exact rationals.
Non-standard Python extensions (`NaN`, `Infinity`) are outside the model. -/

/-- JSON values.  Object fields keep their textual order; duplicate keys are
resolved by `dictGet` (last occurrence wins, as in a Python dict). -/
inductive Json where
  | jnull : Json
  | jbool : Bool → Json
  | jnum : ℚ → Json
  | jstr : List Char → Json
  | jarr : List Json → Json
  | jobj : List (List Char × Json) → Json

/-- JSON whitespace (`json.loads` skips only these four characters). -/
def isJsonWs (c : Char) : Bool :=
  c = ' ' || c = '\t' || c = '\n' || c = '\r'

/-- Skip JSON whitespace. -/
def skipWs (l : List Char) : List Char := l.dropWhile isJsonWs

/-- Value of a hex digit. -/
def hexVal (c : Char) : Option Nat :=
  if '0' ≤ c ∧ c ≤ '9' then some (c.toNat - '0'.toNat)
  else if 'a' ≤ c ∧ c ≤ 'f' then some (c.toNat - 'a'.toNat + 10)
  else if 'A' ≤ c ∧ c ≤ 'F' then some (c.toNat - 'A'.toNat + 10)
  else none

/-- Single-character JSON string escapes. -/
def escChar (c : Char) : Option Char :=
  if c = '"' then some '"'
  else if c = '\\' then some '\\'
  else if c = '/' then some '/'
  else if c = 'b' then some '\x08'
  else if c = 'f' then some '\x0c'
  else if c = 'n' then some '\n'
  else if c = 'r' then some '\r'
  else if c = 't' then some '\t'
  else none

/-- Parse the body of a JSON string after the opening quote, returning the
decoded characters and the text after the closing quote. -/
def parseStrBody : Nat → List Char → Option (List Char × List Char)
  | 0, _ => none
  | _ + 1, [] => none
  | fuel + 1, c :: rest =>
    if c = '"' then some ([], rest)
    else if c = '\\' then
      match rest with
      | [] => none
      | e :: rest2 =>
        if e = 'u' then
          match rest2 with
          | h1 :: h2 :: h3 :: h4 :: rest3 =>
            match hexVal h1, hexVal h2, hexVal h3, hexVal h4 with
            | some a, some b, some c2, some d =>
              (parseStrBody fuel rest3).map
                (fun p => (Char.ofNat (a * 4096 + b * 256 + c2 * 16 + d) :: p.1, p.2))
            | _, _, _, _ => none
          | _ => none
        else
          match escChar e with
          | some ec => (parseStrBody fuel rest2).map (fun p => (ec :: p.1, p.2))
          | none => none
    else (parseStrBody fuel rest).map (fun p => (c :: p.1, p.2))

/-- Decimal digits to a natural number. -/
def digitsToNat (ds : List Char) : Nat :=
  ds.foldl (fun acc c => acc * 10 + (c.toNat - '0'.toNat)) 0

/-- Parse a JSON number (integer part with the no-leading-zero rule, optional
fraction, optional exponent).  The value is assembled as a single exact
rational `±mantissa / 10^k` via `mkRat`, with all intermediate arithmetic on
`Nat`/`Int`. -/
def parseNumber (l : List Char) : Option (ℚ × List Char) :=
  let signAndRest : Bool × List Char :=
    match l with
    | '-' :: r => (true, r)
    | _ => (false, l)
  let ds := signAndRest.2.takeWhile Char.isDigit
  let r1 := signAndRest.2.dropWhile Char.isDigit
  if ds.isEmpty then none
  else if 1 < ds.length ∧ ds.headD '1' = '0' then none
  else
    let fracAndRest : Option (List Char × List Char) :=
      match r1 with
      | '.' :: r2 =>
        let fs := r2.takeWhile Char.isDigit
        if fs.isEmpty then none else some (fs, r2.dropWhile Char.isDigit)
      | _ => some ([], r1)
    match fracAndRest with
    | none => none
    | some (fs, r4) =>
      let expAndRest : Option (Bool × Nat × List Char) :=
        match r4 with
        | c :: r5 =>
          if c = 'e' ∨ c = 'E' then
            let sgnAndRest : Bool × List Char :=
              match r5 with
              | '+' :: rr => (false, rr)
              | '-' :: rr => (true, rr)
              | _ => (false, r5)
            let es := sgnAndRest.2.takeWhile Char.isDigit
            if es.isEmpty then none
            else some (sgnAndRest.1, digitsToNat es, sgnAndRest.2.dropWhile Char.isDigit)
          else some (false, 0, r4)
        | [] => some (false, 0, [])
      match expAndRest with
      | none => none
      | some (negExp, e, r7) =>
        let mantissa : Nat := digitsToNat (ds ++ fs)
        let num : Nat := if negExp then mantissa else mantissa * 10 ^ e
        let den : Nat := if negExp then 10 ^ (fs.length + e) else 10 ^ fs.length
        let q : ℚ := mkRat (if signAndRest.1 then -(num : Int) else (num : Int)) den
        some (q, r7)

mutual

/-- Parse one JSON value, returning it and the remaining text. -/
def parseVal : Nat → List Char → Option (Json × List Char)
  | 0, _ => none
  | fuel + 1, l =>
    match skipWs l with
    | [] => none
    | c :: rest =>
      if c = '"' then
        (parseStrBody (rest.length + 1) rest).map (fun p => (Json.jstr p.1, p.2))
      else if c = '[' then
        match skipWs rest with
        | ']' :: r2 => some (Json.jarr [], r2)
        | l2 => (parseElems fuel l2).map (fun p => (Json.jarr p.1, p.2))
      else if c = '\x7b' then
        match skipWs rest with
        | '\x7d' :: r2 => some (Json.jobj [], r2)
        | l2 => (parseFields fuel l2).map (fun p => (Json.jobj p.1, p.2))
      else if c = 't' then
        if "true".toList.isPrefixOf (c :: rest) then
          some (Json.jbool true, (c :: rest).drop 4)
        else none
      else if c = 'f' then
        if "false".toList.isPrefixOf (c :: rest) then
          some (Json.jbool false, (c :: rest).drop 5)
        else none
      else if c = 'n' then
        if "null".toList.isPrefixOf (c :: rest) then
          some (Json.jnull, (c :: rest).drop 4)
        else none
      else (parseNumber (c :: rest)).map (fun p => (Json.jnum p.1, p.2))

/-- Parse the elements of a non-empty JSON array (position: at the first
element, after the opening bracket). -/
def parseElems : Nat → List Char → Option (List Json × List Char)
  | 0, _ => none
  | fuel + 1, l =>
    match parseVal fuel l with
    | none => none
    | some (v, r) =>
      match skipWs r with
      | ',' :: r2 => (parseElems fuel r2).map (fun p => (v :: p.1, p.2))
      | ']' :: r2 => some ([v], r2)
      | _ => none

/-- Parse the fields of a non-empty JSON object (position: at the first key,
after the opening brace). -/
def parseFields : Nat → List Char → Option (List (List Char × Json) × List Char)
  | 0, _ => none
  | fuel + 1, l =>
    match skipWs l with
    | '"' :: r =>
      match parseStrBody (r.length + 1) r with
      | none => none
      | some (k, r1) =>
        match skipWs r1 with
        | ':' :: r2 =>
          match parseVal fuel r2 with
          | none => none
          | some (v, r3) =>
            match skipWs r3 with
            | ',' :: r4 => (parseFields fuel r4).map (fun p => ((k, v) :: p.1, p.2))
            | '\x7d' :: r4 => some ([(k, v)], r4)
            | _ => none
        | _ => none
    | _ => none

end

/-- Model of `json.loads`: parse a full text as one JSON value, requiring only
whitespace after it. -/
def parseJsonText (l : List Char) : Option Json :=
  match parseVal (2 * l.length + 2) l with
  | some (v, r) => if (skipWs r).isEmpty then some v else none
  | none => none

/-! ## Path handling (`src/utils/file_utils.py`) and data models
(`src/core/models.py`) -/

/-- The filename after the last slash (`pathlib.Path.name` for the POSIX paths
in scope). -/
def basename (p : String) : String :=
  String.mk ((p.toList.reverse.takeWhile (fun c => c ≠ '/')).reverse)

/-- `sanitize_path` of `src/utils/file_utils.py` (POSIX branch): the path
relative to the project root when the file lies under it, else just the
filename; just the filename when no root is known. -/
def sanitize_path (file_path : String) (project_root : Option String) : String :=
  match project_root with
  | some root =>
    if (root.toList ++ ['/']).isPrefixOf file_path.toList then
      String.mk (file_path.toList.drop (root.toList.length + 1))
    else basename file_path
  | none => basename file_path

/-- The `JavaFile` pydantic model of `src/core/models.py` (the `path` is kept
as its string rendering). -/
structure JavaFile where
  path : String
  content : String
  package : String
  file_type : String
  importance : FileImportance := {}
deriving DecidableEq, Repr

/-- The `LLMResponse` pydantic model of `src/core/models.py`.  Its
`confidence_score` field is declared with `Field(ge=0.0, le=1.0)`, so pydantic
raises a `ValidationError` at construction when the value is out of range;
the model therefore only ever holds values built through `mkLLMResponse`. -/
structure LLMResponse where
  file_path : String
  architectural_insights : List String := []
  design_patterns : List String := []
  quality_issues : List String := []
  recommendations : List String := []
  confidence_score : ℚ
  token_usage : List (String × Int) := []
deriving DecidableEq, Repr

/-- Python dict lookup on parsed JSON object fields (`.get`): last occurrence
of a duplicated key wins, as in the dict `json.loads` builds. -/
def dictGet (fields : List (List Char × Json)) (key : String) : Option Json :=
  (fields.reverse.find? (fun kv => kv.1 == key.toList)).map (fun kv => kv.2)

/-- Pydantic validation of a `List[str]` field: a JSON array of strings. -/
def asStrList : Json → Option (List String)
  | Json.jarr es =>
    es.mapM (fun e =>
      match e with
      | Json.jstr s => some (String.mk s)
      | _ => none)
  | _ => none

/-- Pydantic validation of a `Dict[str, int]` field: a JSON object whose
values are integers. -/
def asIntDict : Json → Option (List (String × Int))
  | Json.jobj fs =>
    fs.mapM (fun kv =>
      match kv.2 with
      | Json.jnum q => if q.den = 1 then some (String.mk kv.1, q.num) else none
      | _ => none)
  | _ => none

/-- An optional list field of the response element: Python
`result.get(key, [])` followed by pydantic `List[str]` validation. -/
def getStrListField (fields : List (List Char × Json)) (key : String) :
    Option (List String) :=
  match dictGet fields key with
  | none => some []
  | some v => asStrList v

/-- The `confidence_score` of the response element: Python
`result.get('confidence_score', 0.0)` — a missing key defaults to 0.0 —
followed by pydantic `float` validation (a non-number raises). -/
def getConfidence (fields : List (List Char × Json)) : Option ℚ :=
  match dictGet fields "confidence_score" with
  | none => some 0
  | some (Json.jnum q) => some q
  | some _ => none

/-- The `token_usage` of the response element: Python
`result.get('token_usage', ...)` with the literal default, followed by
pydantic `Dict[str, int]` validation. -/
def getTokenUsage (fields : List (List Char × Json)) :
    Option (List (String × Int)) :=
  match dictGet fields "token_usage" with
  | none => some [("total", 0)]
  | some v => asIntDict v

/-- The `Field(ge=0.0, le=1.0)` range check of `confidence_score`, computed on
the numerator and denominator so it evaluates by kernel reduction. -/
def inUnitRange (q : ℚ) : Bool :=
  (0 ≤ q.num) && (q.num ≤ (q.den : Int))

/-- Constructing `LLMResponse(file_path=path, ...)` from a parsed response
element: each field is extracted with its Python default and validated by
pydantic; `none` models the `ValidationError` raised on any invalid field
(in particular a `confidence_score` outside [0,1]). -/
def mkLLMResponse (path : String) (fields : List (List Char × Json)) :
    Option LLMResponse :=
  match getStrListField fields "architectural_insights",
        getStrListField fields "design_patterns",
        getStrListField fields "quality_issues",
        getStrListField fields "recommendations",
        getConfidence fields,
        getTokenUsage fields with
  | some ai, some dp, some qi, some rec, some conf, some tu =>
    if inUnitRange conf then some ⟨path, ai, dp, qi, rec, conf, tu⟩ else none
  | _, _, _, _, _, _ => none

/-! ## Response reconciliation (`LLMAnalyzer._analyze_file_group`,
lines 204–228 of `src/analyzers/llm_analyzer.py`) -/

/-- Python `result.get('file_path', '') == sanitize_path(f.path, root)`:
the element's `file_path` value compared with a candidate relative path
(a missing key compares as the empty string; a non-string value compares
unequal to every string). -/
def pathMatches (fields : List (List Char × Json)) (rel : String) : Bool :=
  match dictGet fields "file_path" with
  | none => rel == ""
  | some (Json.jstr s) => s == rel.toList
  | some _ => false

/-- The `next((f for f in files if sanitize_path(f.path, root) == file_path),
None)` lookup: the first expected file whose normalized relative path equals
the element's `file_path`. -/
def firstMatch (root : Option String) (files : List JavaFile)
    (fields : List (List Char × Json)) : Option JavaFile :=
  files.find? (fun f => pathMatches fields (sanitize_path f.path root))

/-- Processing one element of the parsed batch response:
`.ok (some r)` — matched and validated, a Finding is produced carrying the
matched file's original full path; `.ok none` — the file path did not match,
the element is dropped with a warning; `.error ()` — an exception escapes the
per-element code (pydantic `ValidationError` on a matched element with invalid
fields, or an `AttributeError` on a non-object element). -/
def elementOutcome (root : Option String) (files : List JavaFile) :
    Json → Except Unit (Option LLMResponse)
  | Json.jobj fields =>
    match firstMatch root files fields with
    | some f =>
      match mkLLMResponse f.path fields with
      | some r => Except.ok (some r)
      | none => Except.error ()
    | none => Except.ok none
  | _ => Except.error ()

/-- The element loop of `_analyze_file_group`: accumulate the converted
responses in order; an exception anywhere abandons the loop (the group-level
handler takes over). -/
def buildResponses (root : Option String) (files : List JavaFile) :
    List Json → Option (List LLMResponse)
  | [] => some []
  | j :: rest =>
    match elementOutcome root files j with
    | Except.error _ => none
    | Except.ok none => buildResponses root files rest
    | Except.ok (some r) => (buildResponses root files rest).map (fun rs => r :: rs)

/-- Reconciling an already-parsed batch response: the element loop, with the
group-level `except Exception` handler returning an empty list when the loop
raised. -/
def reconcileParsed (root : Option String) (files : List JavaFile)
    (elems : List Json) : List LLMResponse :=
  (buildResponses root files elems).getD []

/-! ## Text-level response handling -/

/-- The markdown fence marker. -/
def fenceChars : List Char := "```".toList

/-- The inline fence stripping of `_analyze_file_group` (lines 186–192):
strip, and when the text starts with a fence take
`split('\x60\x60\x60', 2)[1]` — the text between the first marker and the
next occurrence (or everything after the first marker when there is no
other) — drop a `json` tag, and strip again. -/
def cleanBatch (resp : List Char) : List Char :=
  if fenceChars.isPrefixOf (pyStrip resp) then
    pyStrip
      (if "json".toList.isPrefixOf (takeUntilSub fenceChars ((pyStrip resp).drop 3)) then
        (takeUntilSub fenceChars ((pyStrip resp).drop 3)).drop 4
      else takeUntilSub fenceChars ((pyStrip resp).drop 3))
  else pyStrip resp

/-- The opening-fence removal of `_extract_json_from_response`: drop the first
line when it starts with a fence. -/
def dropFenceHead (lines : List (List Char)) : List (List Char) :=
  match lines with
  | h :: t => if fenceChars.isPrefixOf h then t else lines
  | [] => []

/-- The closing-fence removal of `_extract_json_from_response`: drop the last
line when it starts with a fence. -/
def dropFenceLast (lines : List (List Char)) : List (List Char) :=
  match lines.getLast? with
  | some lastLine =>
    if fenceChars.isPrefixOf lastLine then lines.dropLast else lines
  | none => lines

/-- `LLMAnalyzer._extract_json_from_response` (continued): strip, and when the
text starts with a fence, split into lines, drop the fence lines, rejoin. -/
def extract_json_from_response (resp : List Char) : List Char :=
  if fenceChars.isPrefixOf (pyStrip resp) then
    joinNl (dropFenceLast (dropFenceHead (pySplitlines (pyStrip resp))))
  else pyStrip resp

/-- The parse-and-reconcile tail of `_analyze_file_group` (lines 194–237),
applied to the cleaned response text: the text is parsed as a JSON array when
it starts with a bracket and otherwise wrapped as a one-element batch; parse
failure loses the whole group; the parsed elements are reconciled against the
submitted files. -/
def batch_from_cleaned (root : Option String) (files : List JavaFile)
    (cleaned : List Char) : List LLMResponse :=
  match parseJsonText cleaned with
  | none => []
  | some v =>
    reconcileParsed root files
      (if "[".toList.isPrefixOf (pyStrip cleaned) then
        match v with
        | Json.jarr es => es
        | _ => [v]
      else [v])

/-- `LLMAnalyzer._analyze_file_group` (continued), from the LLM response text
onward: the empty-response guard, then the fence stripping and parsing above. -/
def analyze_file_group (root : Option String) (files : List JavaFile)
    (response : String) : List LLMResponse :=
  if files.isEmpty then []
  else if response.toList.isEmpty || (pyStrip response.toList).isEmpty then []
  else batch_from_cleaned root files (cleanBatch response.toList)

/-- `LLMAnalyzer._analyze_single_file` from the LLM response text onward:
extract the JSON, parse it, and construct the `LLMResponse` carrying the
file's own path; a parse failure, a non-object value, or a pydantic
`ValidationError` is caught and yields `None`. -/
def analyze_single_file (file : JavaFile) (response : String) :
    Option LLMResponse :=
  match parseJsonText (extract_json_from_response response.toList) with
  | some (Json.jobj fields) => mkLLMResponse file.path fields
  | some _ => none
  | none => none

/-! ## Prompt building and whole-run analysis (`LLMAnalyzer.analyze_files`)

The LLM transport (`_call_llm`, with its rate limiting and retries) is the
external collaborator of the spec: it is modelled as an oracle
`llm : String → String` from prompt text to completion text.  Likewise the
filesystem probe `get_project_root` is modelled by the `root` parameter
holding its answer.  The `analysis_timestamp` and `execution_time` fields are
wall-clock values outside the embedding and are omitted from the model. -/

/-- One file block of the group prompt of `_analyze_file_group`. -/
def file_block (root : Option String) (f : JavaFile) : String :=
  "File: " ++ sanitize_path f.path root ++ "\n" ++
  "Package: " ++ f.package ++ "\n" ++
  "Type: " ++ f.file_type ++ "\n" ++
  "Content: " ++ f.content

/-- The group prompt of `_analyze_file_group` (lines 162–177). -/
def group_prompt (root : Option String) (files : List JavaFile) : String :=
  "Analyze these related Java files and provide insights in JSON format for each:\n\n" ++
  String.intercalate "\n" (files.map (file_block root)) ++
  "\n\nFor each file, provide a JSON array of objects with this exact format (no markdown formatting, just the raw JSON):\n" ++
  "[\n    \x7b\n        \"file_path\": \"relative/path/to/file\",\n        \"architectural_insights\": [\"list of key architectural insights\"],\n        \"design_patterns\": [\"list of identified design patterns\"],\n        \"quality_issues\": [\"list of quality issues\"],\n        \"recommendations\": [\"list of improvement recommendations\"],\n        \"confidence_score\": 0.0 to 1.0,\n        \"token_usage\": \x7b\"total\": number\x7d\n    \x7d\n]"

/-- `LLMAnalyzer._create_analysis_prompt` (the indentation is that of the
source f-string). -/
def create_analysis_prompt (root : Option String) (f : JavaFile) : String :=
  "Analyze this Java file and provide insights in JSON format:\n" ++
  "        \x7b\n            \"architectural_insights\": [\"list of key architectural insights\"],\n            \"design_patterns\": [\"list of identified design patterns\"],\n            \"quality_issues\": [\"list of quality issues\"],\n            \"recommendations\": [\"list of improvement recommendations\"],\n            \"confidence_score\": 0.0 to 1.0,\n            \"token_usage\": \x7b\"total\": number\x7d\n        \x7d\n\n" ++
  "        File: " ++ sanitize_path f.path root ++ "\n" ++
  "        Package: " ++ f.package ++ "\n" ++
  "        Type: " ++ f.file_type ++ "\n" ++
  "        Content:\n        " ++ f.content ++ "\n        "

/-- Python `', '.join(xs) if xs else 'None'`. -/
def joinOrNone (xs : List String) : String :=
  if xs.isEmpty then "None" else String.intercalate ", " xs

/-- One block of `LLMAnalyzer._summarize_file_results`. -/
def summaryItem (root : Option String) (r : LLMResponse) : String :=
  "File: " ++ sanitize_path r.file_path root ++ "\n" ++
  "  - Architectural Insights: " ++ joinOrNone r.architectural_insights ++ "\n" ++
  "  - Design Patterns: " ++ joinOrNone r.design_patterns ++ "\n" ++
  "  - Quality Issues: " ++ joinOrNone r.quality_issues ++ "\n" ++
  "  - Recommendations: " ++ joinOrNone r.recommendations ++ "\n"

/-- `LLMAnalyzer._summarize_file_results` with its default `max_files = 10`. -/
def summarize_file_results (root : Option String) (results : List LLMResponse) :
    String :=
  let maxFiles : Nat := 10
  let summaries := (results.take maxFiles).map (summaryItem root)
  let summaries :=
    if maxFiles < results.length then
      summaries ++
        ["...and " ++ toString (results.length - maxFiles) ++ " more files analyzed."]
    else summaries
  String.intercalate "\n" summaries

/-- `LLMAnalyzer._generate_architecture_summary`: the fixed text for an empty
result list, otherwise one LLM call over the bounded summary digest. -/
def generate_architecture_summary (llm : String → String) (root : Option String)
    (results : List LLMResponse) : String :=
  if results.isEmpty then "No files were successfully analyzed."
  else
    llm ("\nYou are an expert Java architect and code reviewer. The goal of this analysis is to provide a new developer with a clear, concise, and accurate overview of the project\x27s workings and any issues it might have.\nBy the end of the analysis, the new developer should be able to work on the project and make improvements without having to ask any questions.\n\nHere are the findings from analyzing the following files:\n" ++
      summarize_file_results root results ++
      "\n\nBased on these findings, provide a thorough but to-the-point summary of the overall project architecture. Focus on:\n1. Overall architecture style\n2. Key components and their relationships\n3. Main design patterns used\n4. Notable architectural decisions\nDo not include information or suggestions that are not supported by the findings above. Be specific and base your summary only on the actual findings above.\n")

/-- `LLMAnalyzer._generate_recommendations`: the fixed one-element list for an
empty result list, otherwise one LLM call whose answer is split into one
recommendation per non-blank line. -/
def generate_recommendations (llm : String → String) (root : Option String)
    (results : List LLMResponse) : List String :=
  if results.isEmpty then ["No files were successfully analyzed."]
  else
    let response :=
      llm ("\nYou are an expert Java architect and code reviewer. The goal of this analysis is to provide a new developer with a clear, concise, and accurate overview of the project\x27s workings and any issues it might have.\nBy the end of the analysis, the new developer should be able to work on the project and make improvements without having to ask any questions.\n\nHere are the findings from analyzing the following files:\n" ++
        summarize_file_results root results ++
        "\n\nBased on these findings, provide a list of high-level, project-wide recommendations for improving the project. Focus on:\n1. Architectural improvements\n2. Design pattern applications\n3. Code quality enhancements\n4. Performance optimizations\nDo not suggest improvements that are not supported by the findings above. Be specific and base your recommendations only on the actual findings above.\n")
    ((splitOnNl response.toList).map (fun l => String.mk (pyStrip l))).filter
      (fun s => !s.isEmpty)

/-- Insert into an insertion-ordered dict of lists, appending to the entry of
an existing key (Python `dict` of `list`s). -/
def upsertAppend {β : Type} (m : List (String × List β)) (key : String) (v : β) :
    List (String × List β) :=
  match m with
  | [] => [(key, [v])]
  | (k, vs) :: rest =>
    if k = key then (k, vs ++ [v]) :: rest else (k, vs) :: upsertAppend rest key v

/-- The `f"{file.file_type}:{file.package}"` group key of `_group_files`. -/
def group_key (f : JavaFile) : String := f.file_type ++ ":" ++ f.package

/-- `LLMAnalyzer._group_files`: group by (type, package) key, keys in order of
first appearance, each group keeping file order. -/
def group_files (files : List JavaFile) : List (String × List JavaFile) :=
  files.foldl (fun gs f => upsertAppend gs (group_key f) f) []

/-- `LLMAnalyzer._extract_design_patterns`: map each pattern name to the
sanitized paths of the findings exhibiting it, in encounter order. -/
def extract_design_patterns (root : Option String) (results : List LLMResponse) :
    List (String × List String) :=
  results.foldl
    (fun m r =>
      r.design_patterns.foldl
        (fun m2 p => upsertAppend m2 p (sanitize_path r.file_path root)) m)
    []

/-- Python dict assignment `d[k] = v`: overwrite in place, else append. -/
def setIn (m : List (String × ℚ)) (key : String) (v : ℚ) : List (String × ℚ) :=
  if m.any (fun kv => kv.1 == key) then
    m.map (fun kv => if kv.1 = key then (kv.1, v) else kv)
  else m ++ [(key, v)]

/-- `LLMAnalyzer._extract_quality_metrics`: sanitized path to issue count. -/
def extract_quality_metrics (root : Option String) (results : List LLMResponse) :
    List (String × ℚ) :=
  results.foldl
    (fun m r =>
      setIn m (sanitize_path r.file_path root)
        (mkRat (Int.ofNat r.quality_issues.length) 1))
    []

/-- The `ProjectAnalysis` pydantic model of `src/core/models.py`; the two
wall-clock fields (`analysis_timestamp`, `execution_time`) are outside the
embedding.  The dicts are insertion-ordered association lists. -/
structure ProjectAnalysis where
  project_path : String
  architecture_summary : String
  design_patterns : List (String × List String)
  code_quality_metrics : List (String × ℚ)
  recommendations : List String
  file_analyses : List LLMResponse
deriving DecidableEq, Repr

/-- `LLMAnalyzer.analyze_files`: an empty input returns the fixed empty
`ProjectAnalysis` (with an empty `architecture_summary` string) without any
LLM call; otherwise files are grouped, singleton groups go through the
single-file path and larger groups through the batch path, and the aggregate
is assembled.  `str(self.project_root)` renders a missing root as `"None"`. -/
def analyze_files (llm : String → String) (root : Option String)
    (files : List JavaFile) : ProjectAnalysis :=
  if files.isEmpty then
    { project_path := ""
      architecture_summary := ""
      design_patterns := []
      code_quality_metrics := []
      recommendations := []
      file_analyses := [] }
  else
    let groups := group_files files
    let results : List LLMResponse :=
      groups.foldl
        (fun acc g =>
          match g.2 with
          | [f] =>
            match analyze_single_file f (llm (create_analysis_prompt root f)) with
            | some r => acc ++ [r]
            | none => acc
          | gfiles => acc ++ analyze_file_group root gfiles (llm (group_prompt root gfiles)))
        []
    { project_path := match root with | some r => r | none => "None"
      architecture_summary := generate_architecture_summary llm root results
      design_patterns := extract_design_patterns root results
      code_quality_metrics := extract_quality_metrics root results
      recommendations := generate_recommendations llm root results
      file_analyses := results }

/-! ## CLI file selection (`src/cli.py`, lines 72–78) -/

/-- The comparison realized by `key=lambda x: x.importance.total_score` with
`reverse=True`: `a` may precede `b` when `b`'s score is at most `a`'s. -/
def score_le (a b : JavaFile) : Bool :=
  decide (b.importance.total_score ≤ a.importance.total_score)

/-- Python `files.sort(key=lambda x: x.importance.total_score, reverse=True)`:
a stable sort into descending `total_score` order, modelled by the stable
`List.mergeSort` under the reversed comparison. -/
def cli_sort_files (files : List JavaFile) : List JavaFile :=
  files.mergeSort score_le

/-- The max-files selection of the `analyze` CLI command: when more files were
found than `max_files`, sort by descending importance and keep the prefix. -/
def select_top_files (max_files : Nat) (files : List JavaFile) : List JavaFile :=
  if max_files < files.length then (cli_sort_files files).take max_files
  else files

/-! ## Theorems about batch reconciliation -/

/-- The range check agrees with the [0,1] interval of the spec. -/
theorem inUnitRange_iff (q : ℚ) : inUnitRange q = true ↔ 0 ≤ q ∧ q ≤ 1 := by
  unfold inUnitRange
  rw [Bool.and_eq_true, decide_eq_true_eq, decide_eq_true_eq, Rat.num_nonneg]
  constructor
  · rintro ⟨h1, h2⟩
    exact ⟨h1, by rw [Rat.le_def]; simpa using h2⟩
  · rintro ⟨h1, h2⟩
    refine ⟨h1, ?_⟩
    rw [Rat.le_def] at h2
    simpa using h2

/-- A matched element whose fields fail pydantic validation makes the element
loop raise. -/
theorem elementOutcome_error_of_invalid (root : Option String)
    (files : List JavaFile) (fields : List (List Char × Json)) (f : JavaFile)
    (hmatch : firstMatch root files fields = some f)
    (hval : mkLLMResponse f.path fields = none) :
    elementOutcome root files (Json.jobj fields) = Except.error () := by
  simp only [elementOutcome]
  rw [hmatch]
  simp only [hval]

/-- An out-of-range confidence makes the pydantic construction fail,
whatever the other fields hold. -/
theorem mkLLMResponse_none_of_conf (path : String)
    (fields : List (List Char × Json)) (q : ℚ)
    (hconf : getConfidence fields = some q) (hout : q < 0 ∨ 1 < q) :
    mkLLMResponse path fields = none := by
  have hr : inUnitRange q = false := by
    rw [Bool.eq_false_iff]
    intro htrue
    rcases (inUnitRange_iff q).mp htrue with ⟨h0, h1⟩
    rcases hout with h | h
    · exact absurd h0 (not_le.mpr h)
    · exact absurd h1 (not_le.mpr h)
  unfold mkLLMResponse
  rw [hconf]
  cases getStrListField fields "architectural_insights" <;>
  cases getStrListField fields "design_patterns" <;>
  cases getStrListField fields "quality_issues" <;>
  cases getStrListField fields "recommendations" <;>
  cases getTokenUsage fields <;>
  simp [hr]

/-- An element on which the loop raises poisons the whole batch. -/
theorem buildResponses_none_of_error (root : Option String)
    (files : List JavaFile) {elems : List Json} {j : Json} (hj : j ∈ elems)
    (he : elementOutcome root files j = Except.error ()) :
    buildResponses root files elems = none := by
  induction elems with
  | nil => cases hj
  | cons a rest ih =>
    rcases List.mem_cons.mp hj with rfl | hmem
    · unfold buildResponses
      rw [he]
    · unfold buildResponses
      cases h : elementOutcome root files a with
      | error e => rfl
      | ok o => cases o <;> simp [ih hmem]

/-- Fixture: an expected file under the project root `/proj`. -/
def fileA : JavaFile :=
  { path := "/proj/src/A.java", content := "", package := "com.a",
    file_type := "class" }

/-- Fixture: a second expected file under the same root. -/
def fileB : JavaFile :=
  { path := "/proj/src/B.java", content := "", package := "com.a",
    file_type := "class" }

/-- Fixture: a parsed element matching `fileA` with confidence 1.5 ∉ [0,1]. -/
def elemBadConfA : List (List Char × Json) :=
  [("file_path".toList, Json.jstr "src/A.java".toList),
   ("confidence_score".toList, Json.jnum (mkRat 3 2))]

/-- Fixture: a parsed element matching `fileB` with valid confidence 0.5. -/
def elemGoodConfB : List (List Char × Json) :=
  [("file_path".toList, Json.jstr "src/B.java".toList),
   ("confidence_score".toList, Json.jnum (mkRat 1 2))]

/-- The Finding `elemGoodConfB` would convert to on its own. -/
def responseB : LLMResponse :=
  { file_path := "/proj/src/B.java", confidence_score := mkRat 1 2,
    token_usage := [("total", 0)] }

/-- C2 counterexample: in a parsed batch whose first element matches `fileA`
with confidence 1.5, the whole reconciliation returns the empty list — the
valid sibling element for `fileB` (shown convertible on its own in the second
conjunct) is not returned, refuting "only that element is dropped". -/
theorem C2_counterexample :
    reconcileParsed (some "/proj") [fileA, fileB]
      [Json.jobj elemBadConfA, Json.jobj elemGoodConfB] = [] ∧
    elementOutcome (some "/proj") [fileA, fileB] (Json.jobj elemGoodConfB) =
      Except.ok (some responseB) := by
  exact ⟨by decide, rfl⟩

/-- C2 (amended): when a parsed batch contains an element that matches an
expected file and carries a confidence outside [0,1], the pydantic
`ValidationError` raised at construction is caught by the group-level handler,
which returns the empty list: the whole batch is lost, sibling elements
included, and the call does not raise. -/
theorem C2_amended (root : Option String) (files : List JavaFile)
    (elems : List Json) (fields : List (List Char × Json)) (f : JavaFile)
    (q : ℚ) (hmem : Json.jobj fields ∈ elems)
    (hmatch : firstMatch root files fields = some f)
    (hconf : getConfidence fields = some q)
    (hout : q < 0 ∨ 1 < q) :
    reconcileParsed root files elems = [] := by
  unfold reconcileParsed
  rw [buildResponses_none_of_error root files hmem
    (elementOutcome_error_of_invalid root files fields f hmatch
      (mkLLMResponse_none_of_conf f.path fields q hconf hout))]
  rfl

/-- Witness for C2 (amended) at the two-element fixture batch. -/
theorem C2_amended_witness :
    (1 : ℚ) < mkRat 3 2 ∧
    reconcileParsed (some "/proj") [fileA, fileB]
      [Json.jobj elemBadConfA, Json.jobj elemGoodConfB] = [] :=
  ⟨by decide,
   C2_amended (some "/proj") [fileA, fileB]
     [Json.jobj elemBadConfA, Json.jobj elemGoodConfB] elemBadConfA fileA
     (mkRat 3 2) (List.mem_cons_self _ _) rfl rfl (Or.inr (by decide))⟩

/-- Fixture: a parsed element matching `fileA` with no confidence field and no
optional array fields. -/
def elemNoConfA : List (List Char × Json) :=
  [("file_path".toList, Json.jstr "src/A.java".toList)]

/-- The Finding the analyzer actually builds from `elemNoConfA`. -/
def responseA0 : LLMResponse :=
  { file_path := "/proj/src/A.java", confidence_score := 0,
    token_usage := [("total", 0)] }

/-- C3 counterexample: an element that omits `confidence_score` is not
dropped — it is converted with the Python default 0.0, so the reconciliation
returns one Finding where the claim demands none. -/
theorem C3_counterexample :
    reconcileParsed (some "/proj") [fileA, fileB] [Json.jobj elemNoConfA] =
      [responseA0] ∧
    responseA0.confidence_score = 0 ∧
    ([responseA0] : List LLMResponse) ≠ [] := by
  exact ⟨by decide, rfl, by decide⟩

/-- C3 (amended): an element that omits `confidence_score` is kept, its
confidence defaulting to 0.0 (`result.get('confidence_score', 0.0)`), and
missing optional array fields (and `token_usage`) default to empty values, so
a matched element with all of these absent converts to a Finding with empty
lists, confidence 0, and the default token counter. -/
theorem C3_amended (root : Option String) (files : List JavaFile)
    (fields : List (List Char × Json)) (f : JavaFile)
    (hconf : dictGet fields "confidence_score" = none)
    (hai : dictGet fields "architectural_insights" = none)
    (hdp : dictGet fields "design_patterns" = none)
    (hqi : dictGet fields "quality_issues" = none)
    (hrec : dictGet fields "recommendations" = none)
    (htu : dictGet fields "token_usage" = none)
    (hmatch : firstMatch root files fields = some f) :
    elementOutcome root files (Json.jobj fields) =
      Except.ok (some
        { file_path := f.path, architectural_insights := [],
          design_patterns := [], quality_issues := [], recommendations := [],
          confidence_score := 0, token_usage := [("total", 0)] }) := by
  simp only [elementOutcome]
  rw [hmatch]
  simp only [mkLLMResponse, getStrListField, getConfidence, getTokenUsage,
    hconf, hai, hdp, hqi, hrec, htu]
  have h0 : inUnitRange 0 = true := by decide
  simp [h0]

/-- Witness for C3 (amended) at the fixture element without confidence. -/
theorem C3_amended_witness :
    dictGet elemNoConfA "confidence_score" = none ∧
    elementOutcome (some "/proj") [fileA, fileB] (Json.jobj elemNoConfA) =
      Except.ok (some
        { file_path := fileA.path, architectural_insights := [],
          design_patterns := [], quality_issues := [], recommendations := [],
          confidence_score := 0, token_usage := [("total", 0)] }) :=
  ⟨rfl,
   C3_amended (some "/proj") [fileA, fileB] elemNoConfA fileA
     rfl rfl rfl rfl rfl rfl rfl⟩

/-- A successfully constructed `LLMResponse` carries exactly the path it was
constructed with (the matched file's original full path, not the LLM's
string). -/
theorem mkLLMResponse_path {p : String} {fields : List (List Char × Json)}
    {r : LLMResponse} (h : mkLLMResponse p fields = some r) : r.file_path = p := by
  unfold mkLLMResponse at h
  split at h
  · split at h
    · cases h
      rfl
    · cases h
  · cases h

/-- When no element of the batch makes the loop raise, the loop succeeds and
its result is the per-element `filterMap` of the outcomes. -/
theorem buildResponses_eq_of_no_error (root : Option String)
    (files : List JavaFile) (elems : List Json)
    (hok : ∀ j ∈ elems, elementOutcome root files j ≠ Except.error ()) :
    buildResponses root files elems =
      some (elems.filterMap (fun j =>
        match elementOutcome root files j with
        | Except.ok (some r) => some r
        | _ => none)) := by
  induction elems with
  | nil => rfl
  | cons a rest ih =>
    have ha := hok a (List.mem_cons_self _ _)
    have hrest := ih (fun j hj => hok j (List.mem_cons_of_mem _ hj))
    unfold buildResponses
    cases h : elementOutcome root files a with
    | error e => cases e; exact absurd h ha
    | ok o =>
      cases o with
      | none => rw [List.filterMap_cons]; simp [h, hrest]
      | some r => rw [List.filterMap_cons]; simp [h, hrest]

/-- The reconciliation the spec's words describe, written directly: one
Finding per element whose `file_path` matches an expected file's normalized
relative path (resolved by the first-match lookup), carrying the matched
file's original full path; elements with no match contribute nothing. -/
def reconcileSpec (root : Option String) (files : List JavaFile)
    (elems : List Json) : List LLMResponse :=
  elems.filterMap (fun j =>
    match j with
    | Json.jobj fields =>
      match firstMatch root files fields with
      | some f => mkLLMResponse f.path fields
      | none => none
    | _ => none)

/-- C5 (amended): for a parsed batch response none of whose elements raises
(every matched element passes validation and every element is an object),
reconciliation is exactly the spec's per-element map — one Finding per matched
element, unmatched elements dropped without affecting siblings — and every
returned Finding carries the full path of one of the submitted files. -/
theorem C5_amended (root : Option String) (files : List JavaFile)
    (elems : List Json)
    (hok : ∀ j ∈ elems, elementOutcome root files j ≠ Except.error ()) :
    reconcileParsed root files elems = reconcileSpec root files elems ∧
    ∀ r ∈ reconcileParsed root files elems,
      ∃ f ∈ files, r.file_path = f.path := by
  have heq : reconcileParsed root files elems = reconcileSpec root files elems := by
    unfold reconcileParsed reconcileSpec
    rw [buildResponses_eq_of_no_error root files elems hok]
    simp only [Option.getD_some]
    apply List.filterMap_congr
    intro j hj
    cases j with
    | jobj fields =>
      simp only [elementOutcome]
      cases hm : firstMatch root files fields with
      | none => simp
      | some f =>
        cases hv : mkLLMResponse f.path fields with
        | none => simp [hv]
        | some r => simp [hv]
    | jnull => rfl
    | jbool b => rfl
    | jnum q => rfl
    | jstr s => rfl
    | jarr es => rfl
  refine ⟨heq, ?_⟩
  intro r hr
  rw [heq] at hr
  unfold reconcileSpec at hr
  rcases List.mem_filterMap.mp hr with ⟨j, hj, hsome⟩
  cases j with
  | jobj fields =>
    have hsome2 : (match firstMatch root files fields with
        | some f => mkLLMResponse f.path fields
        | none => none) = some r := hsome
    rcases hm : firstMatch root files fields with _ | f
    · rw [hm] at hsome2
      cases hsome2
    · rw [hm] at hsome2
      refine ⟨f, ?_, mkLLMResponse_path hsome2⟩
      exact List.mem_of_find?_eq_some hm
  | jnull => cases hsome
  | jbool b => cases hsome
  | jnum q => cases hsome
  | jstr s => cases hsome
  | jarr es => cases hsome

/-- Fixture: a fully valid parsed element matching `fileA`. -/
def elemGoodA : List (List Char × Json) :=
  [("file_path".toList, Json.jstr "src/A.java".toList),
   ("confidence_score".toList, Json.jnum (mkRat 1 2)),
   ("architectural_insights".toList, Json.jarr [Json.jstr "layered".toList])]

/-- Fixture: an element matching `fileB` with negative confidence -0.5. -/
def elemNegConfB : List (List Char × Json) :=
  [("file_path".toList, Json.jstr "src/B.java".toList),
   ("confidence_score".toList, Json.jnum (mkRat (-1) 2))]

/-- The Finding `elemGoodA` converts to. -/
def responseA : LLMResponse :=
  { file_path := "/proj/src/A.java", architectural_insights := ["layered"],
    confidence_score := mkRat 1 2, token_usage := [("total", 0)] }

/-- C5 counterexample: in a parsed batch whose first element is valid and
matches `fileA` (second conjunct) while the second element carries an invalid
confidence, reconciliation returns no Finding at all — refuting "one Finding
per element whose file_path matches", since the matched first element produces
nothing. -/
theorem C5_counterexample :
    reconcileParsed (some "/proj") [fileA, fileB]
      [Json.jobj elemGoodA, Json.jobj elemNegConfB] = [] ∧
    elementOutcome (some "/proj") [fileA, fileB] (Json.jobj elemGoodA) =
      Except.ok (some responseA) := by
  exact ⟨by decide, rfl⟩

/-- Witness for C5 (amended) at a singleton valid batch. -/
theorem C5_amended_witness :
    (∀ j ∈ [Json.jobj elemGoodA],
      elementOutcome (some "/proj") [fileA, fileB] j ≠ Except.error ()) ∧
    (reconcileParsed (some "/proj") [fileA, fileB] [Json.jobj elemGoodA] =
        reconcileSpec (some "/proj") [fileA, fileB] [Json.jobj elemGoodA] ∧
      ∀ r ∈ reconcileParsed (some "/proj") [fileA, fileB] [Json.jobj elemGoodA],
        ∃ f ∈ [fileA, fileB], r.file_path = f.path) := by
  have he : elementOutcome (some "/proj") [fileA, fileB] (Json.jobj elemGoodA) =
      Except.ok (some responseA) := rfl
  have hok : ∀ j ∈ [Json.jobj elemGoodA],
      elementOutcome (some "/proj") [fileA, fileB] j ≠ Except.error () := by
    intro j hj
    rcases List.mem_singleton.mp hj with rfl
    rw [he]
    exact fun hc => Except.noConfusion hc
  exact ⟨hok, C5_amended (some "/proj") [fileA, fileB] [Json.jobj elemGoodA] hok⟩

/-! ## Theorems about the whole-run pipeline -/

/-- C4 counterexample: analyzing an empty list of files yields an
`architecture_summary` that is the empty string, not the "no files were
analyzed" text the code produces elsewhere (`generate_architecture_summary`
on an empty result list). -/
theorem C4_counterexample :
    (analyze_files (fun p => p) none []).architecture_summary = "" ∧
    generate_architecture_summary (fun p => p) none [] =
      "No files were successfully analyzed." ∧
    ("" : String) ≠ "No files were successfully analyzed." := by
  exact ⟨rfl, rfl, by decide⟩

/-- C4 (amended): analyzing an empty list of input files returns — without
failing and without any LLM call — a `ProjectAnalysis` whose findings,
design-pattern map and quality-metrics map are empty and whose
`architecture_summary` (and `project_path`) is the empty string. -/
theorem C4_amended (llm : String → String) (root : Option String) :
    analyze_files llm root [] =
      { project_path := "", architecture_summary := "",
        design_patterns := [], code_quality_metrics := [],
        recommendations := [], file_analyses := [] } := rfl

/-- The CLI comparison is transitive. -/
theorem score_le_trans (a b c : JavaFile) :
    score_le a b → score_le b c → score_le a c := by
  intro hab hbc
  simp only [score_le, decide_eq_true_eq] at *
  exact le_trans hbc hab

/-- The CLI comparison is total. -/
theorem score_le_total (a b : JavaFile) : score_le a b || score_le b a := by
  simp only [score_le, Bool.or_eq_true, decide_eq_true_eq]
  exact le_total b.importance.total_score a.importance.total_score

/-- C9: when more files were found than the configured maximum, the kept set
is the prefix of the stable descending sort: projecting the index-aware sort
gives exactly the code's sorted list (first conjunct), that index-aware sort
is descending in `total_score` with ties between equal scores broken by the
original enumeration index (second conjunct, strict `<` on indices), and it is
a permutation of the enumerated input (third conjunct) — so the selection is
reproducible from the input order and scores alone. -/
theorem C9_selection (files : List JavaFile) (max_files : Nat)
    (h : max_files < files.length) :
    select_top_files max_files files =
      ((files.enum.mergeSort (List.enumLE score_le)).map (fun p => p.2)).take
        max_files ∧
    (files.enum.mergeSort (List.enumLE score_le)).Pairwise
      (fun a b => b.2.importance.total_score ≤ a.2.importance.total_score ∧
        (a.2.importance.total_score ≤ b.2.importance.total_score →
          a.1 < b.1)) ∧
    List.Perm (files.enum.mergeSort (List.enumLE score_le)) files.enum := by
  refine ⟨?_, ?_, List.mergeSort_perm files.enum (List.enumLE score_le)⟩
  · unfold select_top_files cli_sort_files
    rw [if_pos h, List.mergeSort_enum]
  · have hs := @List.sorted_mergeSort (Nat × JavaFile) (List.enumLE score_le)
      (List.enumLE_trans score_le_trans) (List.enumLE_total score_le_total)
      files.enum
    have hperm := List.mergeSort_perm files.enum (List.enumLE score_le)
    have hnd : (files.enum.mergeSort (List.enumLE score_le)).Pairwise
        (fun a b => a.1 ≠ b.1) := by
      have h1 : (files.enum.map Prod.fst).Nodup := by
        rw [List.enum_map_fst]
        exact List.nodup_range _
      have h2 : ((files.enum.mergeSort (List.enumLE score_le)).map Prod.fst).Nodup :=
        h1.perm (hperm.map Prod.fst).symm
      exact (List.pairwise_map.mp h2)
    refine (hs.and hnd).imp ?_
    rintro ⟨i, a⟩ ⟨j, b⟩ ⟨henum, hne⟩
    simp only [List.enumLE, score_le] at henum
    by_cases hab : b.importance.total_score ≤ a.importance.total_score
    · refine ⟨hab, fun hba => ?_⟩
      rw [if_pos (decide_eq_true hab), if_pos (decide_eq_true hba),
        decide_eq_true_eq] at henum
      exact lt_of_le_of_ne henum hne
    · simp [hab] at henum

/-- Witness for C9 at a concrete two-file list with `max_files = 1`. -/
theorem C9_selection_witness :
    1 < ([fileA, fileB] : List JavaFile).length ∧
    (select_top_files 1 [fileA, fileB] =
        ((([fileA, fileB] : List JavaFile).enum.mergeSort
            (List.enumLE score_le)).map (fun p => p.2)).take 1 ∧
      (([fileA, fileB] : List JavaFile).enum.mergeSort
          (List.enumLE score_le)).Pairwise
        (fun a b => b.2.importance.total_score ≤ a.2.importance.total_score ∧
          (a.2.importance.total_score ≤ b.2.importance.total_score →
            a.1 < b.1)) ∧
      List.Perm
        (([fileA, fileB] : List JavaFile).enum.mergeSort (List.enumLE score_le))
        ([fileA, fileB] : List JavaFile).enum) :=
  ⟨by decide, C9_selection [fileA, fileB] 1 (by decide)⟩

/-! ## String lemmas for the fence-stripping equivalence (C7) -/

/-- A nonempty pattern that occurs nowhere in `l` is in particular not a
prefix of `l`. -/
theorem isPrefixOf_eq_false_of_hasSub (pat l : List Char) (hp : pat ≠ [])
    (h : hasSub pat l = false) : pat.isPrefixOf l = false := by
  cases l with
  | nil =>
    cases pat with
    | nil => exact absurd rfl hp
    | cons c t => rfl
  | cons c t =>
    have h2 : (pat.isPrefixOf (c :: t) || hasSub pat t) = false := h
    exact (Bool.or_eq_false_iff.mp h2).1

/-- `takeUntilSub` recovers everything before a planted first occurrence: if
`pat` does not occur in `s` and cannot straddle the boundary (the last
character of `s` is not a character of `pat`), the text before the planted
occurrence is exactly `s`. -/
theorem takeUntilSub_append_pat (pat : List Char) (hp : pat ≠ []) :
    ∀ (s r : List Char), hasSub pat s = false →
      (∀ c, s.getLast? = some c → c ∉ pat) →
      takeUntilSub pat (s ++ pat ++ r) = s := by
  intro s
  induction s with
  | nil =>
    intro r _ _
    cases pat with
    | nil => exact absurd rfl hp
    | cons p pt =>
      show takeUntilSub (p :: pt) (p :: (pt ++ r)) = []
      have hpre : (p :: pt).isPrefixOf (p :: (pt ++ r)) = true := by
        rw [List.isPrefixOf_iff_prefix]
        exact ⟨r, by simp⟩
      rw [takeUntilSub, hpre]
      simp
  | cons c s' ih =>
    intro r hno hlast
    have hsplit : (pat.isPrefixOf (c :: s') || hasSub pat s') = false := hno
    have hno' : hasSub pat s' = false := (Bool.or_eq_false_iff.mp hsplit).2
    have hprehead : pat.isPrefixOf (c :: s') = false :=
      (Bool.or_eq_false_iff.mp hsplit).1
    show takeUntilSub pat (c :: (s' ++ pat ++ r)) = c :: s'
    have hpre : pat.isPrefixOf (c :: (s' ++ pat ++ r)) = false := by
      rw [Bool.eq_false_iff]
      intro htrue
      rw [List.isPrefixOf_iff_prefix] at htrue
      have happ : c :: (s' ++ pat ++ r) = (c :: s') ++ (pat ++ r) := by simp
      rw [happ] at htrue
      have hcs : (c :: s') <+: (c :: s') ++ (pat ++ r) := List.prefix_append _ _
      rcases List.prefix_or_prefix_of_prefix htrue hcs with hps | hsp
      · rw [← List.isPrefixOf_iff_prefix] at hps
        rw [hps] at hprehead
        exact Bool.noConfusion hprehead
      · obtain ⟨d, hd⟩ : ∃ d, (c :: s').getLast? = some d := by
          cases hglq : (c :: s').getLast? with
          | none => simp at hglq
          | some d => exact ⟨d, rfl⟩
        exact hlast d hd (hsp.sublist.mem (List.mem_of_getLast?_eq_some hd))
    rw [takeUntilSub, hpre]
    have hlast' : ∀ d, s'.getLast? = some d → d ∉ pat := by
      intro d hd
      apply hlast
      cases s' with
      | nil => cases hd
      | cons x xs => rw [List.getLast?_cons_cons]; exact hd
    simp only [Bool.false_eq_true, if_false]
    rw [ih r hno' hlast']

/-- Appending a single character not in the pattern cannot create an
occurrence. -/
theorem hasSub_append_single (pat : List Char) (hp : pat ≠ []) (c : Char)
    (hc : c ∉ pat) :
    ∀ s : List Char, hasSub pat s = false → hasSub pat (s ++ [c]) = false := by
  intro s
  induction s with
  | nil =>
    intro _
    show (pat.isPrefixOf [c] || hasSub pat []) = false
    have h1 : pat.isPrefixOf [c] = false := by
      rw [Bool.eq_false_iff]
      intro htrue
      rw [List.isPrefixOf_iff_prefix] at htrue
      have htrue2 : pat <+: ([] : List Char) ++ [c] := by simpa using htrue
      rcases List.prefix_concat_iff.mp htrue2 with heq | hpre
      · rw [heq] at hc
        exact hc (by simp)
      · rw [List.prefix_nil] at hpre
        exact hp hpre
    rw [h1]
    cases pat with
    | nil => exact absurd rfl hp
    | cons p pt => rfl
  | cons d s' ih =>
    intro hno
    have hsplit : (pat.isPrefixOf (d :: s') || hasSub pat s') = false := hno
    have hno' : hasSub pat s' = false := (Bool.or_eq_false_iff.mp hsplit).2
    have hprehead : pat.isPrefixOf (d :: s') = false :=
      (Bool.or_eq_false_iff.mp hsplit).1
    show (pat.isPrefixOf ((d :: s') ++ [c]) || hasSub pat (s' ++ [c])) = false
    rw [ih hno', Bool.or_false]
    rw [Bool.eq_false_iff]
    intro htrue
    rw [List.isPrefixOf_iff_prefix] at htrue
    rcases List.prefix_concat_iff.mp htrue with heq | hpre
    · rw [heq] at hc
      exact hc (by simp)
    · rw [← List.isPrefixOf_iff_prefix] at hpre
      rw [hpre] at hprehead
      exact Bool.noConfusion hprehead

/-- `dropWhile` is the identity when the head already fails the predicate. -/
theorem dropWhile_eq_self_of_head (p : Char → Bool) (l : List Char)
    (h : ∀ c, l.head? = some c → p c = false) : l.dropWhile p = l := by
  cases l with
  | nil => rfl
  | cons c t =>
    rw [List.dropWhile_cons, h c rfl]
    simp

/-- `pyStrip` is the identity on text that neither starts nor ends with
whitespace. -/
theorem pyStrip_eq_self (l : List Char)
    (h1 : ∀ c, l.head? = some c → isPySpace c = false)
    (h2 : ∀ c, l.getLast? = some c → isPySpace c = false) :
    pyStrip l = l := by
  unfold pyStrip
  rw [dropWhile_eq_self_of_head _ _ h1]
  rw [dropWhile_eq_self_of_head _ _ (by
    intro c hc
    rw [List.head?_reverse] at hc
    exact h2 c hc)]
  exact List.reverse_reverse l

/-- Stripping absorbs one leading whitespace character. -/
theorem pyStrip_cons_space (c : Char) (l : List Char) (hc : isPySpace c = true) :
    pyStrip (c :: l) = pyStrip l := by
  unfold pyStrip
  rw [List.dropWhile_cons, hc]
  simp

/-- Stripping absorbs one trailing whitespace character. -/
theorem pyStrip_concat_space (c : Char) (l : List Char)
    (hc : isPySpace c = true) : pyStrip (l ++ [c]) = pyStrip l := by
  unfold pyStrip
  rw [List.dropWhile_append]
  rcases hdw : l.dropWhile isPySpace with _ | ⟨x, t⟩
  · simp only [List.isEmpty_nil, if_true]
    rw [List.dropWhile_cons, hc]
    simp
  · simp only [List.isEmpty_cons, Bool.false_eq_true, if_false]
    rw [List.reverse_append]
    simp only [List.reverse_cons, List.reverse_nil, List.nil_append,
      List.singleton_append]
    rw [List.dropWhile_cons, hc]
    simp

/-- `splitOnNl` never returns the empty list of chunks. -/
theorem splitOnNl_ne_nil (l : List Char) : splitOnNl l ≠ [] := by
  cases l with
  | nil => simp [splitOnNl]
  | cons c rest =>
    simp only [splitOnNl]
    by_cases hc : c = '\n'
    · simp [hc]
    · simp only [hc, if_false]
      rcases splitOnNl rest with _ | ⟨h, t⟩ <;> simp

/-- `splitOnNl` distributes over a planted line feed. -/
theorem splitOnNl_append (a b : List Char) :
    splitOnNl (a ++ '\n' :: b) = splitOnNl a ++ splitOnNl b := by
  induction a with
  | nil => simp [splitOnNl]
  | cons c a' ih =>
    by_cases hc : c = '\n'
    · subst hc
      show splitOnNl ('\n' :: (a' ++ '\n' :: b)) = splitOnNl ('\n' :: a') ++ _
      simp only [splitOnNl, if_pos rfl]
      rw [ih]
      simp
    · show splitOnNl (c :: (a' ++ '\n' :: b)) = splitOnNl (c :: a') ++ _
      simp only [splitOnNl, hc, if_false]
      rw [ih]
      rcases hsp : splitOnNl a' with _ | ⟨h0, t⟩
      · exact absurd hsp (splitOnNl_ne_nil a')
      · simp

/-- Rejoining the line-feed split recovers the original text. -/
theorem joinNl_splitOnNl (l : List Char) : joinNl (splitOnNl l) = l := by
  induction l with
  | nil => rfl
  | cons c rest ih =>
    by_cases hc : c = '\n'
    · subst hc
      show joinNl (splitOnNl ('\n' :: rest)) = _
      simp only [splitOnNl, if_pos rfl]
      rcases hsp : splitOnNl rest with _ | ⟨h0, t⟩
      · exact absurd hsp (splitOnNl_ne_nil rest)
      · rw [hsp] at ih
        show ([] : List Char) ++ '\n' :: joinNl (h0 :: t) = '\n' :: rest
        rw [ih]
        rfl
    · show joinNl (splitOnNl (c :: rest)) = _
      simp only [splitOnNl, hc, if_false]
      rcases hsp : splitOnNl rest with _ | ⟨h0, t⟩
      · exact absurd hsp (splitOnNl_ne_nil rest)
      · rw [hsp] at ih
        rcases t with _ | ⟨t0, ts⟩
        · show c :: h0 = c :: rest
          rw [show h0 = rest from ih]
        · show (c :: h0) ++ '\n' :: joinNl (t0 :: ts) = c :: rest
          have ih2 : h0 ++ '\n' :: joinNl (t0 :: ts) = rest := ih
          rw [List.cons_append, ih2]

/-- The fence marker cannot start at a non-backtick character. -/
theorem isPrefixOf_fence_cons (c : Char) (t : List Char) (hc : c ≠ '\x60') :
    fenceChars.isPrefixOf (c :: t) = false := by
  show (('\x60' : Char) :: '\x60' :: '\x60' :: []).isPrefixOf (c :: t) = false
  simp only [List.isPrefixOf, Bool.and_eq_false_iff]
  left
  simpa using fun h => hc h.symm

/-- Scanning for the fence walks past a non-backtick head. -/
theorem hasSub_fence_cons_ne (c : Char) (t : List Char) (hc : c ≠ '\x60') :
    hasSub fenceChars (c :: t) = hasSub fenceChars t := by
  show (fenceChars.isPrefixOf (c :: t) || hasSub fenceChars t) = _
  rw [isPrefixOf_fence_cons c t hc, Bool.false_or]

/-- The fence does not occur in a fence-free payload extended by one line
feed. -/
theorem hasSub_fence_concat_nl (P : List Char)
    (hno : hasSub fenceChars P = false) :
    hasSub fenceChars (P ++ ['\n']) = false :=
  hasSub_append_single fenceChars (by decide) '\n' (by decide) P hno


/-- The last character of the fenced response is a backtick. -/
theorem getLast_fenced (pre : List Char) (P : List Char) :
    (pre ++ (P ++ '\n' :: '\x60' :: '\x60' :: '\x60' :: [])).getLast? =
      some '\x60' := by
  have hre : pre ++ (P ++ '\n' :: '\x60' :: '\x60' :: '\x60' :: []) =
      (pre ++ P ++ ['\n', '\x60', '\x60']) ++ ['\x60'] := by simp
  rw [hre, List.getLast?_concat]

/-- The batch-mode fence stripping of a `json`-tagged fenced payload yields
the stripped payload, provided the payload itself contains no fence marker. -/
theorem cleanBatch_fenced_tagged (P : List Char)
    (hno : hasSub fenceChars P = false) :
    cleanBatch ('\x60' :: '\x60' :: '\x60' :: 'j' :: 's' :: 'o' :: 'n' :: '\n' ::
      (P ++ '\n' :: '\x60' :: '\x60' :: '\x60' :: [])) = pyStrip P := by
  have hstripself : pyStrip ('\x60' :: '\x60' :: '\x60' :: 'j' :: 's' :: 'o' :: 'n' :: '\n' ::
      (P ++ '\n' :: '\x60' :: '\x60' :: '\x60' :: [])) =
      '\x60' :: '\x60' :: '\x60' :: 'j' :: 's' :: 'o' :: 'n' :: '\n' ::
      (P ++ '\n' :: '\x60' :: '\x60' :: '\x60' :: []) := by
    apply pyStrip_eq_self
    · intro c hc
      cases hc
      decide
    · intro c hc
      have h2 := getLast_fenced ('\x60' :: '\x60' :: '\x60' :: 'j' :: 's' :: 'o' :: 'n' :: '\n' :: []) P
      simp only [List.cons_append, List.nil_append] at h2
      rw [h2] at hc
      cases hc
      decide
  unfold cleanBatch
  rw [hstripself]
  have hpre : fenceChars.isPrefixOf ('\x60' :: '\x60' :: '\x60' :: 'j' :: 's' :: 'o' :: 'n' :: '\n' ::
      (P ++ '\n' :: '\x60' :: '\x60' :: '\x60' :: [])) = true := by
    rw [List.isPrefixOf_iff_prefix]
    exact ⟨'j' :: 's' :: 'o' :: 'n' :: '\n' :: (P ++ '\n' :: '\x60' :: '\x60' :: '\x60' :: []), rfl⟩
  rw [hpre]
  simp only [if_true]
  have hdrop : List.drop 3 ('\x60' :: '\x60' :: '\x60' :: 'j' :: 's' :: 'o' :: 'n' :: '\n' ::
      (P ++ '\n' :: '\x60' :: '\x60' :: '\x60' :: [])) =
      'j' :: 's' :: 'o' :: 'n' :: '\n' :: (P ++ '\n' :: '\x60' :: '\x60' :: '\x60' :: []) := rfl
  rw [hdrop]
  have htu : takeUntilSub fenceChars
      ('j' :: 's' :: 'o' :: 'n' :: '\n' :: (P ++ '\n' :: '\x60' :: '\x60' :: '\x60' :: [])) =
      'j' :: 's' :: 'o' :: 'n' :: '\n' :: (P ++ ['\n']) := by
    have hform : 'j' :: 's' :: 'o' :: 'n' :: '\n' :: (P ++ '\n' :: '\x60' :: '\x60' :: '\x60' :: []) =
        ('j' :: 's' :: 'o' :: 'n' :: '\n' :: (P ++ ['\n'])) ++ fenceChars ++ [] := by
      simp [fenceChars]
    rw [hform]
    apply takeUntilSub_append_pat fenceChars (by decide)
    · rw [hasSub_fence_cons_ne _ _ (by decide), hasSub_fence_cons_ne _ _ (by decide),
        hasSub_fence_cons_ne _ _ (by decide), hasSub_fence_cons_ne _ _ (by decide),
        hasSub_fence_cons_ne _ _ (by decide)]
      exact hasSub_fence_concat_nl P hno
    · intro c hc
      have h2 : ('j' :: 's' :: 'o' :: 'n' :: '\n' :: (P ++ ['\n'])).getLast? = some '\n' := by
        have hre : 'j' :: 's' :: 'o' :: 'n' :: '\n' :: (P ++ ['\n']) =
            ('j' :: 's' :: 'o' :: 'n' :: '\n' :: P) ++ ['\n'] := by simp
        rw [hre, List.getLast?_concat]
      rw [h2] at hc
      cases hc
      decide
  rw [htu]
  have hjson : ("json".toList).isPrefixOf
      ('j' :: 's' :: 'o' :: 'n' :: '\n' :: (P ++ ['\n'])) = true := by
    rw [List.isPrefixOf_iff_prefix]
    exact ⟨'\n' :: (P ++ ['\n']), rfl⟩
  rw [hjson]
  simp only [if_true]
  have hdrop4 : List.drop 4 ('j' :: 's' :: 'o' :: 'n' :: '\n' :: (P ++ ['\n'])) =
      '\n' :: (P ++ ['\n']) := rfl
  rw [hdrop4]
  rw [pyStrip_cons_space '\n' _ (by decide), pyStrip_concat_space '\n' _ (by decide)]

/-- An infix occurrence makes `hasSub` true. -/
theorem hasSub_of_occurrence (pat : List Char) (hp : pat ≠ []) :
    ∀ l, pat <:+: l → hasSub pat l = true := by
  intro l h
  obtain ⟨s, t, hst⟩ := h
  induction s generalizing l with
  | nil =>
    subst hst
    cases pat with
    | nil => exact absurd rfl hp
    | cons p pt =>
      show ((p :: pt).isPrefixOf (p :: (pt ++ t)) || hasSub (p :: pt) (pt ++ t)) = true
      have hpre : (p :: pt).isPrefixOf (p :: (pt ++ t)) = true := by
        rw [List.isPrefixOf_iff_prefix]
        exact ⟨t, by simp⟩
      rw [hpre, Bool.true_or]
  | cons c s' ih =>
    subst hst
    show (pat.isPrefixOf _ || hasSub pat (s' ++ pat ++ t)) = true
    rw [ih (s' ++ pat ++ t) rfl, Bool.or_true]

/-- Stripping yields an infix of the original text. -/
theorem pyStrip_within (l : List Char) : pyStrip l <:+: l := by
  unfold pyStrip
  have h1 : (l.dropWhile isPySpace) <:+ l := List.dropWhile_suffix isPySpace
  have h2 : ((l.dropWhile isPySpace).reverse.dropWhile isPySpace) <:+
      (l.dropWhile isPySpace).reverse := List.dropWhile_suffix isPySpace
  have h3 : ((l.dropWhile isPySpace).reverse.dropWhile isPySpace).reverse <+:
      l.dropWhile isPySpace := by
    rw [← List.reverse_suffix]
    simpa using h2
  exact h3.isInfix.trans h1.isInfix

/-- A fence-free response does not start with the fence even after
stripping. -/
theorem isPrefixOf_fence_pyStrip (P : List Char)
    (hno : hasSub fenceChars P = false) :
    fenceChars.isPrefixOf (pyStrip P) = false := by
  rw [Bool.eq_false_iff]
  intro htrue
  rw [List.isPrefixOf_iff_prefix] at htrue
  have hocc : fenceChars <:+: P := htrue.isInfix.trans (pyStrip_within P)
  rw [hasSub_of_occurrence fenceChars (by decide) P hocc] at hno
  exact Bool.noConfusion hno

/-- Batch-mode fence stripping is just `strip` on a fence-free response. -/
theorem cleanBatch_plain (P : List Char) (hno : hasSub fenceChars P = false) :
    cleanBatch P = pyStrip P := by
  unfold cleanBatch
  rw [isPrefixOf_fence_pyStrip P hno]
  simp

/-- Single-mode extraction is just `strip` on a fence-free response. -/
theorem extract_json_plain (P : List Char) (hno : hasSub fenceChars P = false) :
    extract_json_from_response P = pyStrip P := by
  unfold extract_json_from_response
  rw [isPrefixOf_fence_pyStrip P hno]
  simp

/-- The batch-mode fence stripping of an untagged fenced payload yields the
stripped payload, provided the payload itself contains no fence marker. -/
theorem cleanBatch_fenced_plain (P : List Char)
    (hno : hasSub fenceChars P = false) :
    cleanBatch ('\x60' :: '\x60' :: '\x60' :: '\n' ::
      (P ++ '\n' :: '\x60' :: '\x60' :: '\x60' :: [])) = pyStrip P := by
  have hstripself : pyStrip ('\x60' :: '\x60' :: '\x60' :: '\n' ::
      (P ++ '\n' :: '\x60' :: '\x60' :: '\x60' :: [])) =
      '\x60' :: '\x60' :: '\x60' :: '\n' ::
      (P ++ '\n' :: '\x60' :: '\x60' :: '\x60' :: []) := by
    apply pyStrip_eq_self
    · intro c hc
      cases hc
      decide
    · intro c hc
      have h2 := getLast_fenced ('\x60' :: '\x60' :: '\x60' :: '\n' :: []) P
      simp only [List.cons_append, List.nil_append] at h2
      rw [h2] at hc
      cases hc
      decide
  unfold cleanBatch
  rw [hstripself]
  have hpre : fenceChars.isPrefixOf ('\x60' :: '\x60' :: '\x60' :: '\n' ::
      (P ++ '\n' :: '\x60' :: '\x60' :: '\x60' :: [])) = true := by
    rw [List.isPrefixOf_iff_prefix]
    exact ⟨'\n' :: (P ++ '\n' :: '\x60' :: '\x60' :: '\x60' :: []), rfl⟩
  rw [hpre]
  simp only [if_true]
  have hdrop : List.drop 3 ('\x60' :: '\x60' :: '\x60' :: '\n' ::
      (P ++ '\n' :: '\x60' :: '\x60' :: '\x60' :: [])) =
      '\n' :: (P ++ '\n' :: '\x60' :: '\x60' :: '\x60' :: []) := rfl
  rw [hdrop]
  have htu : takeUntilSub fenceChars
      ('\n' :: (P ++ '\n' :: '\x60' :: '\x60' :: '\x60' :: [])) =
      '\n' :: (P ++ ['\n']) := by
    have hform : '\n' :: (P ++ '\n' :: '\x60' :: '\x60' :: '\x60' :: []) =
        ('\n' :: (P ++ ['\n'])) ++ fenceChars ++ [] := by
      simp [fenceChars]
    rw [hform]
    apply takeUntilSub_append_pat fenceChars (by decide)
    · rw [hasSub_fence_cons_ne _ _ (by decide)]
      exact hasSub_fence_concat_nl P hno
    · intro c hc
      have h2 : ('\n' :: (P ++ ['\n'])).getLast? = some '\n' := by
        have hre : '\n' :: (P ++ ['\n']) = ('\n' :: P) ++ ['\n'] := by simp
        rw [hre, List.getLast?_concat]
      rw [h2] at hc
      cases hc
      decide
  rw [htu]
  have hjson : ("json".toList).isPrefixOf ('\n' :: (P ++ ['\n'])) = false := by
    show (('j' : Char) :: 's' :: 'o' :: 'n' :: []).isPrefixOf ('\n' :: (P ++ ['\n'])) = false
    simp [List.isPrefixOf]
  rw [hjson]
  simp only [Bool.false_eq_true, if_false]
  rw [pyStrip_cons_space '\n' _ (by decide), pyStrip_concat_space '\n' _ (by decide)]

/-- Single-mode extraction of a fenced payload: when the opening line `a`
holds on one line and starts with the fence, the extraction returns the
payload between the fence lines exactly. -/
theorem extract_json_fenced_generic (a P : List Char)
    (hsplit_a : splitOnNl a = [a])
    (hpre_a : fenceChars.isPrefixOf a = true)
    (hhead : ∃ t, a = '\x60' :: t) :
    extract_json_from_response (a ++ '\n' ::
      (P ++ '\n' :: '\x60' :: '\x60' :: '\x60' :: [])) = P := by
  obtain ⟨t0, ht0⟩ := hhead
  have hstripself : pyStrip (a ++ '\n' ::
      (P ++ '\n' :: '\x60' :: '\x60' :: '\x60' :: [])) =
      a ++ '\n' :: (P ++ '\n' :: '\x60' :: '\x60' :: '\x60' :: []) := by
    apply pyStrip_eq_self
    · intro c hc
      rw [ht0] at hc
      cases hc
      decide
    · intro c hc
      have h2 := getLast_fenced (a ++ ['\n']) P
      simp only [List.append_assoc, List.singleton_append] at h2
      rw [h2] at hc
      cases hc
      decide
  unfold extract_json_from_response
  rw [hstripself]
  have hpre : fenceChars.isPrefixOf (a ++ '\n' ::
      (P ++ '\n' :: '\x60' :: '\x60' :: '\x60' :: [])) = true := by
    rw [List.isPrefixOf_iff_prefix]
    rw [List.isPrefixOf_iff_prefix] at hpre_a
    exact hpre_a.trans (List.prefix_append _ _)
  rw [hpre]
  simp only [if_true]
  have hlines : pySplitlines (a ++ '\n' ::
      (P ++ '\n' :: '\x60' :: '\x60' :: '\x60' :: [])) =
      a :: (splitOnNl P ++ ['\x60' :: '\x60' :: '\x60' :: []]) := by
    unfold pySplitlines
    have hne : (a ++ '\n' ::
        (P ++ '\n' :: '\x60' :: '\x60' :: '\x60' :: [])).isEmpty = false := by
      rw [ht0]
      rfl
    rw [hne]
    have hgl := getLast_fenced (a ++ ['\n']) P
    simp only [List.append_assoc, List.singleton_append] at hgl
    rw [hgl]
    simp only [Option.some.injEq, reduceCtorEq, if_false, Bool.false_eq_true]
    have happ : splitOnNl (a ++ '\n' ::
        (P ++ '\n' :: '\x60' :: '\x60' :: '\x60' :: [])) =
        splitOnNl a ++ splitOnNl (P ++ '\n' :: '\x60' :: '\x60' :: '\x60' :: []) :=
      splitOnNl_append a _
    rw [happ, hsplit_a]
    rw [splitOnNl_append P ('\x60' :: '\x60' :: '\x60' :: [])]
    have hsf : splitOnNl ('\x60' :: '\x60' :: '\x60' :: []) =
        [['\x60', '\x60', '\x60']] := by decide
    rw [hsf]
    rfl
  rw [hlines]
  have hdh : dropFenceHead (a :: (splitOnNl P ++ ['\x60' :: '\x60' :: '\x60' :: []])) =
      splitOnNl P ++ ['\x60' :: '\x60' :: '\x60' :: []] := by
    show (if fenceChars.isPrefixOf a = true then
        splitOnNl P ++ ['\x60' :: '\x60' :: '\x60' :: []]
      else a :: (splitOnNl P ++ ['\x60' :: '\x60' :: '\x60' :: []])) =
      splitOnNl P ++ ['\x60' :: '\x60' :: '\x60' :: []]
    rw [hpre_a]
    simp
  rw [hdh]
  have hdl : dropFenceLast (splitOnNl P ++ ['\x60' :: '\x60' :: '\x60' :: []]) =
      splitOnNl P := by
    unfold dropFenceLast
    rw [List.getLast?_concat]
    have hf : fenceChars.isPrefixOf ('\x60' :: '\x60' :: '\x60' :: []) = true := by
      decide
    show (if fenceChars.isPrefixOf ('\x60' :: '\x60' :: '\x60' :: []) = true then
        (splitOnNl P ++ ['\x60' :: '\x60' :: '\x60' :: []]).dropLast
      else splitOnNl P ++ ['\x60' :: '\x60' :: '\x60' :: []]) = splitOnNl P
    rw [hf]
    simp only [if_true]
    exact List.dropLast_concat
  rw [hdl]
  exact joinNl_splitOnNl P

/-- `pyStrip` is the identity on text that starts and ends with a backtick. -/
theorem pyStrip_self_of_backticks (l : List Char)
    (h1 : l.head? = some '\x60') (h2 : l.getLast? = some '\x60') :
    pyStrip l = l := by
  apply pyStrip_eq_self
  · intro c hc
    rw [h1] at hc
    cases hc
    decide
  · intro c hc
    rw [h2] at hc
    cases hc
    decide

/-- C7 (amended): for a payload that contains no fence marker and carries no
leading or trailing whitespace, wrapping it in a markdown code fence (tagged
`json` or untagged) yields exactly the same result as the unwrapped payload,
in both batch mode and single-file mode. -/
theorem C7_amended (root : Option String) (files : List JavaFile)
    (f : JavaFile) (P : String)
    (hno : hasSub fenceChars P.toList = false)
    (hstrip : pyStrip P.toList = P.toList) :
    analyze_file_group root files ("```json\n" ++ P ++ "\n```") =
      analyze_file_group root files P ∧
    analyze_file_group root files ("```\n" ++ P ++ "\n```") =
      analyze_file_group root files P ∧
    analyze_single_file f ("```json\n" ++ P ++ "\n```") =
      analyze_single_file f P ∧
    analyze_single_file f ("```\n" ++ P ++ "\n```") =
      analyze_single_file f P := by
  have hWt : ("```json\n" ++ P ++ "\n```").toList =
      '\x60' :: '\x60' :: '\x60' :: 'j' :: 's' :: 'o' :: 'n' :: '\n' ::
        (P.toList ++ '\n' :: '\x60' :: '\x60' :: '\x60' :: []) := rfl
  have hWp : ("```\n" ++ P ++ "\n```").toList =
      '\x60' :: '\x60' :: '\x60' :: '\n' ::
        (P.toList ++ '\n' :: '\x60' :: '\x60' :: '\x60' :: []) := rfl
  have hWtA : ("```json\n" ++ P ++ "\n```").toList =
      ('\x60' :: '\x60' :: '\x60' :: 'j' :: 's' :: 'o' :: 'n' :: []) ++ '\n' ::
        (P.toList ++ '\n' :: '\x60' :: '\x60' :: '\x60' :: []) := rfl
  have hWpA : ("```\n" ++ P ++ "\n```").toList =
      ('\x60' :: '\x60' :: '\x60' :: []) ++ '\n' ::
        (P.toList ++ '\n' :: '\x60' :: '\x60' :: '\x60' :: []) := rfl
  have hglT := getLast_fenced
    ('\x60' :: '\x60' :: '\x60' :: 'j' :: 's' :: 'o' :: 'n' :: '\n' :: []) P.toList
  simp only [List.cons_append, List.nil_append] at hglT
  have hglP := getLast_fenced ('\x60' :: '\x60' :: '\x60' :: '\n' :: []) P.toList
  simp only [List.cons_append, List.nil_append] at hglP
  have hbatch : ∀ (w : List Char),
      cleanBatch w = P.toList → w.isEmpty = false → (pyStrip w).isEmpty = false →
      (if files.isEmpty then []
        else if w.isEmpty || (pyStrip w).isEmpty then []
        else batch_from_cleaned root files (cleanBatch w)) =
      (if files.isEmpty then []
        else if P.toList.isEmpty || (pyStrip P.toList).isEmpty then []
        else batch_from_cleaned root files (cleanBatch P.toList)) := by
    intro w hcw hw1 hw2
    cases hfe : files.isEmpty with
    | true => rfl
    | false =>
      simp only [Bool.false_eq_true, if_false]
      rw [hcw]
      rw [if_neg (by simp [hw1, hw2])]
      rw [hstrip]
      cases hPe : P.toList.isEmpty with
      | true =>
        rw [if_pos (by simp)]
        have hP0 : P.toList = [] := by
          cases hl : P.toList with
          | nil => rfl
          | cons c t => rw [hl] at hPe; cases hPe
        rw [hP0]
        rfl
      | false =>
        rw [if_neg (by simp)]
        rw [cleanBatch_plain P.toList hno, hstrip]
  refine ⟨?_, ?_, ?_, ?_⟩
  · show (if files.isEmpty then []
      else if ("```json\n" ++ P ++ "\n```").toList.isEmpty ||
          (pyStrip ("```json\n" ++ P ++ "\n```").toList).isEmpty then []
      else batch_from_cleaned root files
        (cleanBatch ("```json\n" ++ P ++ "\n```").toList)) = _
    rw [hWt]
    apply hbatch
    · rw [cleanBatch_fenced_tagged P.toList hno, hstrip]
    · rfl
    · rw [pyStrip_self_of_backticks _ (by rfl) hglT]
      rfl
  · show (if files.isEmpty then []
      else if ("```\n" ++ P ++ "\n```").toList.isEmpty ||
          (pyStrip ("```\n" ++ P ++ "\n```").toList).isEmpty then []
      else batch_from_cleaned root files
        (cleanBatch ("```\n" ++ P ++ "\n```").toList)) = _
    rw [hWp]
    apply hbatch
    · rw [cleanBatch_fenced_plain P.toList hno, hstrip]
    · rfl
    · rw [pyStrip_self_of_backticks _ (by rfl) hglP]
      rfl
  · unfold analyze_single_file
    rw [hWtA, extract_json_fenced_generic _ _ (by decide) (by decide) ⟨_, rfl⟩,
        extract_json_plain P.toList hno, hstrip]
  · unfold analyze_single_file
    rw [hWpA, extract_json_fenced_generic _ _ (by decide) (by decide) ⟨_, rfl⟩,
        extract_json_plain P.toList hno, hstrip]

/-- Fixture: a valid batch payload for `fileA` whose design-pattern string
contains a fence marker. -/
def payloadFenceInside : String :=
  "[\x7b\"file_path\": \"src/A.java\", \"confidence_score\": 0.5, \"design_patterns\": [\"x``` y\"]\x7d]"

/-- The Finding the unwrapped `payloadFenceInside` yields. -/
def responseAFence : LLMResponse :=
  { file_path := "/proj/src/A.java", confidence_score := mkRat 1 2,
    design_patterns := ["x``` y"], token_usage := [("total", 0)] }

/-- C7 counterexample: a payload containing a fence marker inside a JSON
string parses to one Finding when sent bare, but wrapped in a code fence the
batch-mode stripping truncates it at the embedded marker
(`split` with the fence separator), the parse fails, and the group is lost —
the fenced and unfenced responses do not reconcile identically. -/
theorem C7_counterexample :
    analyze_file_group (some "/proj") [fileA, fileB]
      ("```json\n" ++ payloadFenceInside ++ "\n```") = [] ∧
    analyze_file_group (some "/proj") [fileA, fileB] payloadFenceInside =
      [responseAFence] ∧
    ([] : List LLMResponse) ≠ [responseAFence] := by
  exact ⟨by decide, by decide, by decide⟩

/-- Witness for C7 (amended) at the concrete payload `"[]"`. -/
theorem C7_amended_witness :
    hasSub fenceChars "[]".toList = false ∧
    pyStrip "[]".toList = "[]".toList ∧
    (analyze_file_group (some "/proj") [fileA] ("```json\n" ++ "[]" ++ "\n```") =
        analyze_file_group (some "/proj") [fileA] "[]" ∧
      analyze_file_group (some "/proj") [fileA] ("```\n" ++ "[]" ++ "\n```") =
        analyze_file_group (some "/proj") [fileA] "[]" ∧
      analyze_single_file fileA ("```json\n" ++ "[]" ++ "\n```") =
        analyze_single_file fileA "[]" ∧
      analyze_single_file fileA ("```\n" ++ "[]" ++ "\n```") =
        analyze_single_file fileA "[]") :=
  ⟨by decide, by decide,
   C7_amended (some "/proj") [fileA] fileA "[]" (by decide) (by decide)⟩
